import Mathlib

/-
Verification of the nuance transit-search engine (src/nuance/nuance.py)
against its design specification.

The Python module is shallowly embedded over exact rationals. Machine
floats are modelled by ℚ, with IEEE non-finiteness (NaN/Inf) modelled by
`Option ℚ` exactly where the source can produce it (the inverse of a
singular Gram matrix, and every value downstream of it). External
collaborators that the source calls but does not define — the tinygp
GaussianProcess solver, numpy primitives, and the two repository files
absent from the sources (utils.py and search_data.py) — are modelled as
abstract function parameters or, where the spec pins them down, as
definitions marked "Modelled from the spec".
-/

namespace NuanceModel

/-- Per-point error as passed to the session constructor: Python allows a
scalar float, a numpy array, or None (src/nuance/nuance.py line 18). -/
inductive ErrVal where
  | scalar (s : ℚ)
  | arr (e : List ℚ)
deriving DecidableEq

/-- The SearchData result container (constructed at src/nuance/nuance.py
lines 133-135 and mutated at lines 169-172 and 371-377). Its own class body
lives in search_data.py, absent from the sources; the fields here are the
ones the code under src/ reads or writes. `llc`/`llv` are opaque fold
caches only ever written as None by the code under src/, so they are kept
at a placeholder type. Non-finite floats never reach `ll`, `z`, `vz`
(see the variance sanitation below), so those grids are plain rationals,
while `Q_snr` entries may be NaN (`none`). -/
structure SearchData where
  t0s : List ℚ
  Ds : List ℚ
  ll : List (List ℚ)
  z : List (List ℚ)
  vz : List (List ℚ)
  ll0 : ℚ
  periods : Option (List ℚ)
  Q_snr : Option (List (Option ℚ))
  Q_ll : Option (List ℚ)
  Q_params : Option (List (ℚ × ℚ × ℚ))
  llc : Option Unit
  llv : Option Unit

/-- Modelled from the spec: SearchData.copy lives in search_data.py, which
is absent from the sources; §6 specifies "supports copy() (deep,
independent)". A deep, independent copy of an immutable value is the value
itself. -/
def SearchData.copy (sd : SearchData) : SearchData := sd

/-- The Nuance session (the dataclass of src/nuance/nuance.py). `time`,
`flux`, `error` and `X` are the arrays stored by __init__ (lines 33-42);
the design matrix `X` is held as its `k` rows of baseline regressors
(`k = len(X)`, lifted to a type index so that the (k+1)-dimensional linear
algebra of eval_m is well typed). `Lsolve` and `logProb` abstract the
external tinygp GaussianProcess built at line 47: its
`solver.solve_triangular` and `log_probability` operations (the whitening
provider of spec §6). `template` — Modelled from the spec:
utils.single_transit / utils.transit (utils.py is absent from the
sources); §4.1 specifies a pure, deterministic pointwise template of a
time value, an epoch t0, a duration D and an optional period P, at unit
depth (the code always passes depth=1). -/
structure Nuance (k : ℕ) where
  time : List ℚ
  flux : List ℚ
  error : Option ErrVal
  X : Fin k → List ℚ
  Lsolve : List ℚ → List ℚ
  logProb : List ℚ → ℚ
  template : ℚ → ℚ → ℚ → Option ℚ → ℚ
  search_data : Option SearchData

/-- Dot product of two vectors held as lists, as produced by the numpy `@`
products inside eval_m. All vectors the source multiplies have equal
length; `zipWith` truncation is never exercised on well-formed data. -/
def dot (a b : List ℚ) : ℚ := (List.zipWith (fun x y => x * y) a b).sum

/-- Model of the jitted closure `eval_m` built by `Nuance._compute_L`
(src/nuance/nuance.py lines 54-70). `Xm = vstack([X, m])` is the function
sending a row index below k to the X row and the last index to `m`;
`LiXm` holds the whitened columns, `G` the Gram matrix `LiXm.T @ LiXm`
and `rhs` the vector `LiXm.T @ Liy`. `jnp.linalg.lstsq` is modelled by the
adjugate inverse formula, which is the exact solution whenever the Gram
matrix is invertible (no claim depends on the minimum-norm completion of
the singular case); `jnp.linalg.inv`, which produces non-finite entries on
a singular matrix, is modelled as `none` exactly there. The returned
coefficient vector and covariance are lists, as the callers index them. -/
def Nuance.eval_m {k : ℕ} (nu : Nuance k) (m : List ℚ) :
    ℚ × List ℚ × Option (List (List ℚ)) :=
  let Xm : Fin (k + 1) → List ℚ := Fin.snoc nu.X m
  let LiXm : Fin (k + 1) → List ℚ := fun j => nu.Lsolve (Xm j)
  let Liy := nu.Lsolve nu.flux
  let G : Matrix (Fin (k + 1)) (Fin (k + 1)) ℚ :=
    Matrix.of fun a b => dot (LiXm a) (LiXm b)
  let rhs : Fin (k + 1) → ℚ := fun a => dot (LiXm a) Liy
  let w : Fin (k + 1) → ℚ := (G.det⁻¹ • G.adjugate).mulVec rhs
  let v : Option (Matrix (Fin (k + 1)) (Fin (k + 1)) ℚ) :=
    if G.det = 0 then none else some (G.det⁻¹ • G.adjugate)
  let fit : List ℚ :=
    (List.range nu.flux.length).map fun t => ∑ j, w j * (Xm j).getD t 0
  let ll := nu.logProb (List.zipWith (fun y yhat => y - yhat) nu.flux fit)
  (ll, List.ofFn w, v.map fun M => List.ofFn fun a => List.ofFn fun b => M a b)

/-- The `Nuance.ll0` property (src/nuance/nuance.py lines 72-80): the
log-likelihood of the all-zero regressor, `eval_m(zeros_like(time))[0]`. -/
def Nuance.ll0 {k : ℕ} (nu : Nuance k) : ℚ :=
  (nu.eval_m (nu.time.map fun _ => 0)).1

/-- The jitted `eval_transit(t0, D)` closure inside linear_search
(src/nuance/nuance.py lines 115-119): evaluates the single-transit
template (utils.single_transit, i.e. the template at P = None) and
returns `(w[n], v[n,n], ll)` with `n = len(X)`, the transit-regressor
slot. The middle component is `none` when the Gram matrix was singular
(non-finite variance in the source). -/
def Nuance.eval_transit {k : ℕ} (nu : Nuance k) (t0 D : ℚ) :
    ℚ × Option ℚ × ℚ :=
  let m := nu.time.map fun t => nu.template t t0 D none
  let r := nu.eval_m m
  (r.2.1.getD k 0, (r.2.2).map fun v => (v.getD k []).getD k 0, r.1)

/-- The SearchData value stored by `Nuance.linear_search`
(src/nuance/nuance.py lines 107-135): the grid of eval_transit results
over t0s × Ds, with the sign-constraint policy `ll[depths < 0] = ll0`
(applied when positive, lines 127-129, with `ll0 = eval_m(zeros)[0]`
recomputed at line 128) followed by the variance sanitation
`vars[~isfinite(vars)] = 1e25` (line 131). The grids are stored row by
epoch, column by duration, and the container also receives
`ll0 = self.ll0` (line 134). Fields beyond the constructor call of line
133 are the dataclass defaults (None). -/
def Nuance.linSearchData {k : ℕ} (nu : Nuance k) (t0s Ds : List ℚ) (positive : Bool) :
    SearchData :=
  let cells := t0s.map fun t0 => Ds.map fun D => nu.eval_transit t0 D
  let depths := cells.map fun row => row.map fun c => c.1
  let ll_raw := cells.map fun row => row.map fun c => c.2.2
  let ll :=
    if positive then
      List.zipWith
        (List.zipWith fun l d =>
          if d < 0 then (nu.eval_m (nu.time.map fun _ => 0)).1 else l)
        ll_raw depths
    else ll_raw
  let vz := cells.map fun row => row.map fun c => (c.2.1).getD (10 ^ 25)
  { t0s := t0s, Ds := Ds, ll := ll, z := depths, vz := vz, ll0 := nu.ll0,
    periods := none, Q_snr := none, Q_ll := none, Q_params := none,
    llc := none, llv := none }

/-- Model of `Nuance.linear_search` (src/nuance/nuance.py lines 82-135).
The Python method stores the surface into `self.search_data` and falls off
the end of the function body (its docstring: "Returns None"). The pair
returned here is (the updated session, the Python return value). -/
def Nuance.linear_search {k : ℕ} (nu : Nuance k) (t0s Ds : List ℚ) (positive : Bool) :
    Nuance k × Option SearchData :=
  ({ nu with search_data := some (nu.linSearchData t0s Ds positive) }, none)

/-- The linear system solved for a single candidate, `Nuance.solve`
(src/nuance/nuance.py lines 240-259): evaluates eval_m on the
utils.transit template (depth 1, optional period P) and returns (w, v). -/
def Nuance.solve {k : ℕ} (nu : Nuance k) (t0 D : ℚ) (P : Option ℚ) :
    List ℚ × Option (List (List ℚ)) :=
  let m := nu.time.map fun t => nu.template t t0 D P
  let r := nu.eval_m m
  (r.2.1, r.2.2)

/-- `Nuance.depth` (src/nuance/nuance.py lines 261-279): `w[-1]` and
`np.sqrt(v[-1,-1])`. `w` has length `len(X)+1`, so the `-1` index is slot
`n = len(X)`. `np.sqrt` is an external numpy primitive, abstracted as the
parameter `sq`; when `v` carries the non-finite entries of a singular Gram
matrix, `sqrt` of them is again non-finite, hence the `Option` pushes
through. -/
def Nuance.depth {k : ℕ} (nu : Nuance k) (sq : ℚ → ℚ) (t0 D : ℚ) (P : Option ℚ) :
    ℚ × Option ℚ :=
  let r := nu.solve t0 D P
  (r.1.getD k 0, r.2.map fun v => sq ((v.getD k []).getD k 0))

/-- `Nuance.snr` (src/nuance/nuance.py lines 281-299): the depth divided
by its error, `w / dw`; NaN whenever the depth error is NaN. -/
def Nuance.snr {k : ℕ} (nu : Nuance k) (sq : ℚ → ℚ) (t0 D : ℚ) (P : Option ℚ) :
    Option ℚ :=
  let r := nu.depth sq t0 D P
  r.2.map fun dw => r.1 / dw

/-- Index of the first maximum of a list, np.argmax (external numpy
primitive, specified to return the first occurrence of the maximum). -/
def argmaxIdx : List ℚ → ℕ
  | [] => 0
  | [_] => 0
  | x :: y :: rest =>
      let t := argmaxIdx (y :: rest)
      if x < (y :: rest).getD t 0 then t + 1 else 0

/-- `np.unravel_index(np.argmax(g), g.shape)` for a row-major rectangular
grid: the flat argmax split into (row, column) by the column count. -/
def argmax2d (g : List (List ℚ)) : ℕ × ℕ :=
  let nc := (g.headD []).length
  let K := argmaxIdx g.flatten
  (K / nc, K % nc)

/-- Entry (i, j) of a grid held as a list of rows. -/
def get2d (g : List (List ℚ)) (i j : ℕ) : ℚ := (g.getD i []).getD j 0

/-- `np.mean` of a 2-D array: the sum of all entries over their count. -/
def mean2d (g : List (List ℚ)) : ℚ :=
  g.flatten.sum / (g.flatten.length : ℚ)

/-- Model of `Nuance.periodic_search` (src/nuance/nuance.py lines
137-174). The fold-aggregation primitive `fold_ll` is a method of the
SearchData store (search_data.py, absent from the sources) — Modelled from
the spec §6 as an abstract parameter of type
period ↦ (phase grid, raw aggregate, maximized aggregate), applied to the
copied container exactly as `new_search_data.fold_ll(P)` is. For each
period the code takes the row-major argmax cell (i, j) of the maximized
aggregate P2, forms `Ti = phase[i] * P`, `Dj = Ds[j]`, recomputes
`snr(Ti, Dj, P)` through the model evaluator, and records
`P2[i,j] - P2.mean()`. Results land in the Q_ fields of the copy, which
is returned; `self` is never written (an unset `self.search_data` would
raise, modelled by `none`). `sq` abstracts np.sqrt as in `Nuance.depth`. -/
def Nuance.periodic_search {k : ℕ} (nu : Nuance k) (sq : ℚ → ℚ)
    (fold_ll : SearchData → ℚ → List ℚ × List (List ℚ) × List (List ℚ))
    (periods : List ℚ) : Option (Nuance k × SearchData) :=
  nu.search_data.map fun sd0 =>
      let nsd := sd0.copy
      let recs := periods.map fun P =>
        let f := fold_ll nsd P
        let ij := argmax2d f.2.2
        let Ti := f.1.getD ij.1 0 * P
        let Dj := nsd.Ds.getD ij.2 0
        (nu.snr sq Ti Dj (some P), (Ti, Dj, P),
          get2d f.2.2 ij.1 ij.2 - mean2d f.2.2)
      (nu,
        { nsd with
            periods := some periods,
            Q_snr := some (recs.map fun r => r.1),
            Q_ll := some (recs.map fun r => r.2.2),
            Q_params := some (recs.map fun r => r.2.1) })

/-- Modelled from the spec: rational floor-mod, the numpy remainder with a
positive modulus, used to express the centered fold of §4.4 step 1. -/
def qmod (a b : ℚ) : ℚ := a - b * (⌊a / b⌋ : ℤ)

/-- Modelled from the spec: utils.phase (utils.py is absent from the
sources). §4.4 step 1: fold a time onto phase = (t − t0) mod P in a
centered convention, phase 0 at the transit and |phase| ≤ P/2. -/
def phase (t t0 P : ℚ) : ℚ := qmod (t - t0 + P / 2) P - P / 2

/-- Numpy boolean-mask indexing `a[mask]`: keep the entries of `l` at the
positions where `keep` holds. -/
def select {α : Type} (keep : List Bool) (l : List α) : List α :=
  ((keep.zip l).filter fun q => q.1).map fun q => q.2

/-- Model of the session constructor `Nuance.__init__` (src/nuance/nuance.py
lines 17-52). The GaussianProcess built at line 47 is external tinygp; its
whitening and likelihood operations enter as the `Lsolve`/`logProb`
parameters, and `template` is the abstract template of spec §4.1. The
default design matrix is `atleast_2d(ones_like(time))`, one all-ones row.
Line 47 evaluates `error ** 2`: on the default `error=None` this is
`None ** 2`, a TypeError — the constructor cannot complete, modelled as
`none`. (A scalar or array error squares fine.) -/
def mkNuance {k : ℕ} (Lsolve : List ℚ → List ℚ) (logProb : List ℚ → ℚ)
    (template : ℚ → ℚ → ℚ → Option ℚ → ℚ)
    (time flux : List ℚ) (error : Option ErrVal)
    (X : Option (Fin k → List ℚ)) : Option (Nuance k) :=
  match error with
  | none => none
  | some e =>
      some { time := time, flux := flux, error := some e,
             X := X.getD fun _ => time.map fun _ => 1,
             Lsolve := Lsolve, logProb := logProb, template := template,
             search_data := none }

/-- Model of `Nuance.mask` (src/nuance/nuance.py lines 349-395): copies
the search data, drops the grid epochs with |phase(t0s, t0, P)| ≤ 2D
together with their grid rows, resets the fold caches and periods, then
rebuilds a fresh session from the time points with |phase(time, t0, P)|
> 2D, carrying the filtered error when it is an array and the unfiltered
value otherwise, and attaches the masked search data. The fresh session's
GaussianProcess is rebuilt on the masked time axis, so its whitening
operations are new external inputs `Lsolve2`/`logProb2`; a session whose
`search_data` was never set would raise on `.copy()` (modelled `none`),
and a session with `error=None` raises inside the constructor call. -/
def Nuance.mask {k : ℕ} (nu : Nuance k) (Lsolve2 : List ℚ → List ℚ)
    (logProb2 : List ℚ → ℚ) (t0 D P : ℚ) : Option (Nuance k) :=
  nu.search_data.bind fun sd0 =>
      let sd := sd0.copy
      let keep0 := sd.t0s.map fun t => decide (2 * D < |phase t t0 P|)
      let sd2 : SearchData :=
        { t0s := select keep0 sd.t0s, Ds := sd.Ds,
          ll := select keep0 sd.ll, z := select keep0 sd.z,
          vz := select keep0 sd.vz, ll0 := sd.ll0,
          periods := none, Q_snr := sd.Q_snr, Q_ll := sd.Q_ll,
          Q_params := sd.Q_params, llc := none, llv := none }
      let keep := nu.time.map fun t => decide (2 * D < |phase t t0 P|)
      let error2 : Option ErrVal :=
        match nu.error with
        | some (ErrVal.arr e) => some (ErrVal.arr (select keep e))
        | other => other
      (mkNuance Lsolve2 logProb2 nu.template (select keep nu.time)
          (select keep nu.flux) error2 (some fun i => select keep (nu.X i))).map
        fun nu2 => { nu2 with search_data := some sd2 }

/-! ### Generic indexing helpers -/

lemma getD_map_of_lt {α β : Type} (f : α → β) (l : List α) {i : ℕ} (hi : i < l.length)
    (d : β) (d' : α) : (l.map f).getD i d = f (l.getD i d') := by
  simp [List.getD_eq_getElem?_getD, List.getElem?_map, List.getElem?_eq_getElem hi]

lemma getD_zipWith_of_lt {α β γ : Type} (f : α → β → γ) (a : List α) (b : List β) {i : ℕ}
    (ha : i < a.length) (hb : i < b.length) (d : γ) (da : α) (db : β) :
    (List.zipWith f a b).getD i d = f (a.getD i da) (b.getD i db) := by
  simp [List.getD_eq_getElem?_getD, List.getElem?_zipWith, List.getElem?_eq_getElem ha,
    List.getElem?_eq_getElem hb]

lemma grid_getD_row {α β : Type} (t0s Ds : List ℚ) (ev : ℚ → ℚ → α) (F : α → β) {i : ℕ}
    (hi : i < t0s.length) :
    ((t0s.map fun t0 => Ds.map fun D => ev t0 D).map fun row => row.map F).getD i []
      = Ds.map fun D => F (ev (t0s.getD i 0) D) := by
  have h1 : ((t0s.map fun t0 => Ds.map fun D => ev t0 D).map fun row => row.map F)
      = t0s.map fun t0 => Ds.map fun D => F (ev t0 D) := by
    simp [List.map_map, Function.comp]
  rw [h1, getD_map_of_lt _ _ hi _ 0]

lemma get2d_grid {α : Type} (t0s Ds : List ℚ) (ev : ℚ → ℚ → α) (F : α → ℚ) {i j : ℕ}
    (hi : i < t0s.length) (hj : j < Ds.length) :
    get2d ((t0s.map fun t0 => Ds.map fun D => ev t0 D).map fun row => row.map F) i j
      = F (ev (t0s.getD i 0) (Ds.getD j 0)) := by
  rw [get2d, grid_getD_row t0s Ds ev F hi, getD_map_of_lt _ _ hj _ 0]

lemma zipWith_self_map_nil {α γ : Type} (f : γ → γ → γ) (l : List α) :
    List.zipWith (List.zipWith f) (l.map fun _ => ([] : List γ)) (l.map fun _ => ([] : List γ))
      = l.map fun _ => ([] : List γ) := by
  induction l with
  | nil => rfl
  | cons x xs ih => simp

/-! ### Dimension-bridging evaluation lemmas (stated at the syntactic
dimension 0 + 1 so that they rewrite inside eval_m instantiated at k = 0) -/

lemma det01 (A : Matrix (Fin (0 + 1)) (Fin (0 + 1)) ℚ) : A.det = A 0 0 :=
  Matrix.det_fin_one A

lemma adj01 (A : Matrix (Fin (0 + 1)) (Fin (0 + 1)) ℚ) : A.adjugate = 1 :=
  Matrix.adjugate_fin_one A

lemma sum01 (f : Fin (0 + 1) → ℚ) : ∑ i, f i = f 0 := Fin.sum_univ_one f

/-- Line 128 of the source recomputes the same quantity the ll0 property
returns; the two coincide definitionally. -/
lemma eval_m_zeros_eq_ll0 {k : ℕ} (nu : Nuance k) :
    (nu.eval_m (nu.time.map fun _ => 0)).1 = nu.ll0 := rfl

/-! ### Concrete test sessions (k = 0: no baseline regressor, one or two
data points, identity whitening, sum log-likelihood) used to instantiate
the theorems below on explicit inputs. -/

/-- A session whose constant template of height 1 on flux [-1] fits a
negative depth: eval_transit gives depth -1, variance 1, ll 0, and the
null model gives ll0 = -1. -/
def nuA : Nuance 0 :=
  { time := [0], flux := [-1], error := some (ErrVal.arr [1]), X := Fin.elim0,
    Lsolve := fun m => m, logProb := fun r => r.sum,
    template := fun _ _ _ _ => 1, search_data := none }

lemma nuA_eval : nuA.eval_transit 0 1 = (-1, some 1, 0) := by
  simp only [Nuance.eval_transit, Nuance.eval_m, nuA]
  norm_num [dot, det01, adj01, sum01, Matrix.of_apply, Matrix.mulVec,
    Matrix.dotProduct, Matrix.smul_apply, List.ofFn_succ, Matrix.one_apply,
    List.getD, Fin.snoc, List.range_succ]

lemma nuA_ll0 : nuA.ll0 = -1 := by
  simp only [Nuance.ll0, Nuance.eval_m, nuA]
  norm_num [dot, det01, adj01, sum01, Matrix.of_apply, Matrix.mulVec,
    Matrix.dotProduct, Matrix.smul_apply, List.ofFn_succ, Matrix.one_apply,
    List.getD, Fin.snoc, List.range_succ]

lemma nuA_lin : nuA.linSearchData [0] [1] true =
    ⟨[0], [1], [[-1]], [[-1]], [[1]], -1, none, none, none, none, none, none⟩ := by
  rw [Nuance.linSearchData]
  simp only [eval_m_zeros_eq_ll0]
  norm_num [nuA_eval, nuA_ll0]

/-- A search surface container with dummy entries, for the frame theorems. -/
def sdB : SearchData :=
  ⟨[0], [1], [[1]], [[1]], [[1]], 0, none, none, none, none, none, none⟩

/-- The session nuA carrying sdB as its stored surface. -/
def nuB : Nuance 0 := { nuA with search_data := some sdB }

/-! ### Claim C1 -/

/-- Claim C1: in linear_search with positive=True, a grid cell whose fitted
depth is negative stores the null log-likelihood ll0, while its stored
depth is the raw fitted value and the z and vz grids are exactly those of
the positive=False run (the sign policy touches only ll). -/
theorem claim1_sign_policy {k : ℕ} (nu : Nuance k) (t0s Ds : List ℚ) (i j : ℕ)
    (hi : i < t0s.length) (hj : j < Ds.length)
    (hneg : get2d (nu.linSearchData t0s Ds true).z i j < 0) :
    get2d (nu.linSearchData t0s Ds true).ll i j = (nu.linSearchData t0s Ds true).ll0
    ∧ get2d (nu.linSearchData t0s Ds true).z i j
        = (nu.eval_transit (t0s.getD i 0) (Ds.getD j 0)).1
    ∧ (nu.linSearchData t0s Ds true).z = (nu.linSearchData t0s Ds false).z
    ∧ (nu.linSearchData t0s Ds true).vz = (nu.linSearchData t0s Ds false).vz := by
  have hz : get2d (nu.linSearchData t0s Ds true).z i j
      = (nu.eval_transit (t0s.getD i 0) (Ds.getD j 0)).1 :=
    get2d_grid t0s Ds (fun t0 D => nu.eval_transit t0 D) (fun c => c.1) hi hj
  refine ⟨?_, hz, rfl, rfl⟩
  show get2d (List.zipWith (List.zipWith fun l d =>
      if d < 0 then (nu.eval_m (nu.time.map fun _ => 0)).1 else l)
      ((t0s.map fun t0 => Ds.map fun D => nu.eval_transit t0 D).map fun row =>
        row.map fun c => c.2.2)
      ((t0s.map fun t0 => Ds.map fun D => nu.eval_transit t0 D).map fun row =>
        row.map fun c => c.1)) i j = _
  rw [get2d, getD_zipWith_of_lt _ _ _ (by simpa using hi) (by simpa using hi) _ [] [],
    grid_getD_row t0s Ds _ _ hi, grid_getD_row t0s Ds _ _ hi,
    getD_zipWith_of_lt _ _ _ (by simpa using hj) (by simpa using hj) _ 0 0,
    getD_map_of_lt _ _ hj _ 0, getD_map_of_lt _ _ hj _ 0]
  rw [hz] at hneg
  rw [if_pos hneg, eval_m_zeros_eq_ll0]
  rfl

/-- Witness for claim C1 at the session nuA on the one-cell grid
t0s = [0], Ds = [1], where the fitted depth is -1. -/
theorem claim1_witness :
    get2d (nuA.linSearchData [0] [1] true).z 0 0 < 0
    ∧ (get2d (nuA.linSearchData [0] [1] true).ll 0 0 = (nuA.linSearchData [0] [1] true).ll0
      ∧ get2d (nuA.linSearchData [0] [1] true).z 0 0
          = (nuA.eval_transit (([0] : List ℚ).getD 0 0) (([1] : List ℚ).getD 0 0)).1
      ∧ (nuA.linSearchData [0] [1] true).z = (nuA.linSearchData [0] [1] false).z
      ∧ (nuA.linSearchData [0] [1] true).vz = (nuA.linSearchData [0] [1] false).vz) :=
  ⟨by norm_num [nuA_lin, get2d],
    claim1_sign_policy nuA [0] [1] 0 0 (by norm_num) (by norm_num)
      (by norm_num [nuA_lin, get2d])⟩

/-! ### Claim C7 -/

/-- Counterexample to claim C7 as stated: linear_search does not hand the
SearchSurface back as its return value — the Python function body ends
without a return statement (its docstring reads "Returns None"), so at the
concrete call nuA.linear_search([0], [1]) the returned value is None
rather than a SearchSurface. -/
theorem claim7_counterexample : (nuA.linear_search [0] [1] true).2 = none := rfl

/-- Claim C7 as amended: for every valid epoch and duration grid,
linear_search builds the SearchSurface — three grids of equal shape
|t0s| × |Ds| together with the scalar ll0 — but stores it in the session's
search_data; the call's return value is None. -/
theorem claim7_surface_stored_not_returned {k : ℕ} (nu : Nuance k)
    (t0s Ds : List ℚ) (b : Bool) :
    (nu.linear_search t0s Ds b).2 = none
    ∧ (nu.linear_search t0s Ds b).1.search_data = some (nu.linSearchData t0s Ds b)
    ∧ (nu.linSearchData t0s Ds b).ll.length = t0s.length
    ∧ (nu.linSearchData t0s Ds b).z.length = t0s.length
    ∧ (nu.linSearchData t0s Ds b).vz.length = t0s.length
    ∧ (∀ i, i < t0s.length →
        ((nu.linSearchData t0s Ds b).ll.getD i []).length = Ds.length
        ∧ ((nu.linSearchData t0s Ds b).z.getD i []).length = Ds.length
        ∧ ((nu.linSearchData t0s Ds b).vz.getD i []).length = Ds.length)
    ∧ (nu.linSearchData t0s Ds b).ll0 = nu.ll0 := by
  refine ⟨rfl, rfl, ?_, by simp [Nuance.linSearchData], by simp [Nuance.linSearchData],
    ?_, rfl⟩
  · cases b <;> simp [Nuance.linSearchData]
  · intro i hi
    refine ⟨?_, ?_, ?_⟩
    · cases b with
      | false =>
        show ((( t0s.map fun t0 => Ds.map fun D => nu.eval_transit t0 D).map fun row =>
          row.map fun c => c.2.2).getD i []).length = Ds.length
        rw [grid_getD_row t0s Ds _ _ hi]; simp
      | true =>
        show ((List.zipWith (List.zipWith fun l d =>
            if d < 0 then (nu.eval_m (nu.time.map fun _ => 0)).1 else l)
            ((t0s.map fun t0 => Ds.map fun D => nu.eval_transit t0 D).map fun row =>
              row.map fun c => c.2.2)
            ((t0s.map fun t0 => Ds.map fun D => nu.eval_transit t0 D).map fun row =>
              row.map fun c => c.1)).getD i []).length = Ds.length
        rw [getD_zipWith_of_lt _ _ _ (by simpa using hi) (by simpa using hi) _ [] [],
          grid_getD_row t0s Ds _ _ hi, grid_getD_row t0s Ds _ _ hi]
        simp
    · show ((( t0s.map fun t0 => Ds.map fun D => nu.eval_transit t0 D).map fun row =>
        row.map fun c => c.1).getD i []).length = Ds.length
      rw [grid_getD_row t0s Ds _ _ hi]; simp
    · show ((( t0s.map fun t0 => Ds.map fun D => nu.eval_transit t0 D).map fun row =>
        row.map fun c => (c.2.1).getD (10 ^ 25)).getD i []).length = Ds.length
      rw [grid_getD_row t0s Ds _ _ hi]; simp

/-! ### Claim C6 -/

/-- Counterexample to claim C6 as stated: on the empty epoch grid the
engine surfaces no configuration error; it silently stores a SearchSurface
whose grids are empty, here at the concrete session nuA with t0s = [] and
Ds = [1]. (The model of linear_search is a total function: no code path of
the source raises on empty input.) -/
theorem claim6_counterexample :
    (nuA.linear_search [] [1] true).1.search_data
      = some ⟨[], [1], [], [], [], -1, none, none, none, none, none, none⟩ := by
  have h : nuA.linSearchData [] [1] true
      = ⟨[], [1], [], [], [], -1, none, none, none, none, none, none⟩ := by
    rw [Nuance.linSearchData]
    norm_num [nuA_ll0]
  show some (nuA.linSearchData [] [1] true) = _
  rw [h]

/-- Claim C6 as amended: linear_search with an empty epoch sequence or an
empty duration sequence raises no error; it completes and stores a
SearchSurface that is empty along the corresponding axis while still
carrying ll0. -/
theorem claim6_empty_grid_silent {k : ℕ} (nu : Nuance k) (t0s Ds : List ℚ) (b : Bool) :
    (nu.linear_search [] Ds b).1.search_data
      = some ⟨[], Ds, [], [], [], nu.ll0, none, none, none, none, none, none⟩
    ∧ (nu.linear_search t0s [] b).1.search_data
      = some ⟨t0s, [], t0s.map fun _ => [], t0s.map fun _ => [],
          t0s.map fun _ => [], nu.ll0, none, none, none, none, none, none⟩ := by
  constructor
  · show some (nu.linSearchData [] Ds b) = _
    rw [Nuance.linSearchData]
    cases b <;> simp
  · show some (nu.linSearchData t0s [] b) = _
    rw [Nuance.linSearchData]
    cases b <;> simp [List.map_map, Function.comp, zipWith_self_map_nil]

/-! ### Claim C8 -/

/-- Claim C8: periodic_search reads the stored surface only — the session
it returns is the unchanged input session (search_data included), and the
returned container is a copy whose core fields t0s, Ds, ll, z, vz, ll0 are
those of the stored surface, with only the folded Q results added. In this
pure embedding, Python's in-place mutation of the copy is rendered as a
functional update of the fresh value produced by SearchData.copy (a deep,
independent copy per spec §6), so non-mutation of the original is the
returned session's literal equality with the input. -/
theorem claim8_read_only {k : ℕ} (nu : Nuance k) (sq : ℚ → ℚ)
    (fold_ll : SearchData → ℚ → List ℚ × List (List ℚ) × List (List ℚ))
    (periods : List ℚ) (sd0 : SearchData) (h : nu.search_data = some sd0) :
    ∃ sd', nu.periodic_search sq fold_ll periods = some (nu, sd')
      ∧ sd'.t0s = sd0.t0s ∧ sd'.Ds = sd0.Ds ∧ sd'.ll = sd0.ll
      ∧ sd'.z = sd0.z ∧ sd'.vz = sd0.vz ∧ sd'.ll0 = sd0.ll0 := by
  unfold Nuance.periodic_search
  rw [h, Option.map_some']
  exact ⟨_, rfl, rfl, rfl, rfl, rfl, rfl, rfl⟩

/-- Witness for claim C8 at the concrete session nuB with stored surface
sdB, an arbitrary fold primitive and an empty period list. -/
theorem claim8_witness :
    nuB.search_data = some sdB
    ∧ ∃ sd', nuB.periodic_search (fun x => x) (fun _ _ => ([], [], [])) []
        = some (nuB, sd')
      ∧ sd'.t0s = sdB.t0s ∧ sd'.Ds = sdB.Ds ∧ sd'.ll = sdB.ll
      ∧ sd'.z = sdB.z ∧ sd'.vz = sdB.vz ∧ sd'.ll0 = sdB.ll0 :=
  ⟨rfl, claim8_read_only nuB (fun x => x) (fun _ _ => ([], [], [])) [] sdB rfl⟩

/-! ### Claim C10 -/

/-- Claim C10 (code_bug evidence): constructing a session with the error
argument left at its default None does not succeed — line 47 of the source
evaluates error ** 2, which on None raises a TypeError before the session
is usable. At the failing input time = [0], flux = [1], error omitted, the
modelled constructor produces no session. -/
theorem claim10_default_error_fails :
    @mkNuance 1 (fun m => m) (fun r => r.sum) (fun _ _ _ _ => 1)
      [0] [1] none none = none := rfl

/-! ### Claim C2: the Gram-matrix positivity argument -/

lemma dot_eq_sum_range (xs ys : List ℚ) (M : ℕ) (hx : xs.length ≤ M)
    (hy : ys.length ≤ M) :
    dot xs ys = ∑ t ∈ Finset.range M, xs.getD t 0 * ys.getD t 0 := by
  induction xs generalizing ys M with
  | nil => simp [dot]
  | cons x xs ih =>
      cases ys with
      | nil => simp [dot]
      | cons y ys =>
          cases M with
          | zero => exact absurd hx (by simp)
          | succ M =>
              have hx' : xs.length ≤ M := Nat.succ_le_succ_iff.mp (by simpa using hx)
              have hy' : ys.length ≤ M := Nat.succ_le_succ_iff.mp (by simpa using hy)
              rw [Finset.sum_range_succ']
              simp only [List.getD_cons_succ, List.getD_cons_zero]
              rw [← ih ys M hx' hy']
              simp [dot, add_comm]

/-- For the Gram matrix G of any family of whitened columns (G a b is the
truncating dot product of columns a and b, equal to the Gram matrix of the
zero-padded column matrix B), a nonzero determinant forces every diagonal
entry of the adjugate inverse to be strictly positive: the entry equals a
nonzero sum of squares. This is the exact-arithmetic content behind the
spec invariant that variances are positive. -/
lemma gram_inv_diag_pos {n : ℕ} (c : Fin n → List ℚ)
    (hdet : (Matrix.of fun a b => dot (c a) (c b)).det ≠ 0) (a : Fin n) :
    0 < ((Matrix.of fun a b => dot (c a) (c b)).det⁻¹
          • (Matrix.of fun a b => dot (c a) (c b)).adjugate) a a := by
  set G : Matrix (Fin n) (Fin n) ℚ := Matrix.of fun a b => dot (c a) (c b) with hG
  set M : ℕ := ∑ j : Fin n, (c j).length with hM
  have hlen : ∀ j, (c j).length ≤ M := by
    intro j
    rw [hM]
    exact @Finset.single_le_sum (Fin n) ℕ _ (fun x => (c x).length) Finset.univ
      (fun i _ => Nat.zero_le _) j (Finset.mem_univ j)
  set B : Matrix (Fin M) (Fin n) ℚ := Matrix.of fun t j => (c j).getD t 0 with hB
  have hGBB : G = B.transpose * B := by
    ext a b
    show dot (c a) (c b) = (B.transpose * B) a b
    rw [Matrix.mul_apply, dot_eq_sum_range (c a) (c b) M (hlen a) (hlen b),
      ← Fin.sum_univ_eq_sum_range (fun t => (c a).getD t 0 * (c b).getD t 0) M]
    exact Finset.sum_congr rfl fun t _ => by
      simp [hB, Matrix.transpose_apply, Matrix.of_apply]
  have hunit : IsUnit G.det := isUnit_iff_ne_zero.mpr hdet
  have hinv_eq : G.det⁻¹ • G.adjugate = G⁻¹ := by
    rw [Matrix.inv_def, Ring.inverse_eq_inv]
  rw [hinv_eq]
  set y : Fin n → ℚ := G⁻¹.mulVec (Pi.single a 1) with hy
  have hGy : G.mulVec y = Pi.single a 1 := by
    rw [hy, Matrix.mulVec_mulVec, Matrix.mul_nonsing_inv G hunit, Matrix.one_mulVec]
  have hyaa : G⁻¹ a a = y a := by
    rw [hy, Matrix.mulVec_single]
    simp
  have hquad : y a = Matrix.dotProduct (B.mulVec y) (B.mulVec y) := by
    calc y a = Matrix.dotProduct (Pi.single a 1) y := by
          rw [Matrix.single_dotProduct, one_mul]
      _ = Matrix.dotProduct (G.mulVec y) y := by rw [hGy]
      _ = Matrix.dotProduct y (G.mulVec y) := Matrix.dotProduct_comm _ _
      _ = Matrix.dotProduct y (B.transpose.mulVec (B.mulVec y)) := by
          rw [hGBB, ← Matrix.mulVec_mulVec]
      _ = Matrix.dotProduct (Matrix.vecMul y B.transpose) (B.mulVec y) :=
          Matrix.dotProduct_mulVec y B.transpose (B.mulVec y)
      _ = Matrix.dotProduct (B.mulVec y) (B.mulVec y) := by
          rw [Matrix.vecMul_transpose]
  have hnn : 0 ≤ y a := by
    rw [hquad]
    exact Finset.sum_nonneg fun t _ => mul_self_nonneg _
  rcases lt_or_eq_of_le hnn with hpos | hzero
  · rw [hyaa]; exact hpos
  · exfalso
    have h0 : Matrix.dotProduct (B.mulVec y) (B.mulVec y) = 0 := by
      rw [← hquad, ← hzero]
    have hBy : B.mulVec y = 0 := Matrix.dotProduct_self_eq_zero.mp h0
    have hG0 : G.mulVec y = 0 := by
      rw [hGBB, ← Matrix.mulVec_mulVec, hBy, Matrix.mulVec_zero]
    rw [hGy] at hG0
    have h2 := congrFun hG0 a
    rw [Pi.single_eq_same] at h2
    simp at h2

lemma getD_ofFn {α : Type} {n : ℕ} (f : Fin n → α) {i : ℕ} (h : i < n) (d : α) :
    (List.ofFn f).getD i d = f ⟨i, h⟩ := by
  simp [List.getD_eq_getElem?_getD, List.getElem?_ofFn, List.ofFnNthVal, h]

/-- The variance slot produced by eval_m, after sanitation, is strictly
positive: a singular Gram matrix yields `none`, sanitized to the sentinel
1e25; an invertible one yields the positive diagonal entry of its
inverse. -/
lemma eval_m_vz_pos {k : ℕ} (nu : Nuance k) (m : List ℚ) :
    0 < ((((nu.eval_m m).2.2).map fun v => (v.getD k []).getD k 0).getD (10 ^ 25)) := by
  simp only [Nuance.eval_m]
  by_cases hdet : (Matrix.of fun a b =>
      dot (nu.Lsolve ((Fin.snoc nu.X m : Fin (k + 1) → List ℚ) a))
        (nu.Lsolve ((Fin.snoc nu.X m : Fin (k + 1) → List ℚ) b))).det = 0
  · rw [if_pos hdet]
    norm_num
  · rw [if_neg hdet]
    simp only [Option.map_some']
    have hk : k < k + 1 := Nat.lt_succ_self k
    rw [getD_ofFn _ hk, getD_ofFn _ hk, Option.getD_some]
    exact gram_inv_diag_pos
      (fun j => nu.Lsolve ((Fin.snoc nu.X m : Fin (k + 1) → List ℚ) j)) hdet ⟨k, hk⟩

/-- The sanitized variance slot of eval_transit is strictly positive. -/
lemma eval_transit_vz_pos {k : ℕ} (nu : Nuance k) (t0 D : ℚ) :
    0 < ((nu.eval_transit t0 D).2.1).getD (10 ^ 25) :=
  eval_m_vz_pos nu (nu.time.map fun t => nu.template t t0 D none)

/-- Claim C2: after linear_search, every stored variance entry is finite
and strictly positive; at any cell whose raw covariance was non-finite
(singular Gram matrix) the stored entry is exactly the sentinel 1e25.
Finiteness is intrinsic to the grid (the sanitation step is the only
producer of its entries); positivity holds because an invertible Gram
matrix of whitened regressors is positive definite, so the diagonal of
its inverse is positive. -/
theorem claim2_vz_finite_positive {k : ℕ} (nu : Nuance k) (t0s Ds : List ℚ)
    (b : Bool) (row : List ℚ) (x : ℚ)
    (hrow : row ∈ (nu.linSearchData t0s Ds b).vz) (hx : x ∈ row) :
    0 < x
    ∧ ∀ i j, i < t0s.length → j < Ds.length →
        (nu.eval_transit (t0s.getD i 0) (Ds.getD j 0)).2.1 = none →
        get2d (nu.linSearchData t0s Ds b).vz i j = 10 ^ 25 := by
  constructor
  · have hrow' : row ∈ (t0s.map fun t0 => Ds.map fun D => nu.eval_transit t0 D).map
        (fun r => r.map fun c => (c.2.1).getD (10 ^ 25)) := hrow
    rcases List.mem_map.mp hrow' with ⟨r0, hr0, hrw⟩
    rcases List.mem_map.mp hr0 with ⟨t0, ht0, hre⟩
    subst hre
    subst hrw
    rcases List.mem_map.mp hx with ⟨c0, hc0, hce⟩
    subst hce
    rcases List.mem_map.mp hc0 with ⟨D, hD, hde⟩
    subst hde
    exact eval_transit_vz_pos nu t0 D
  · intro i j hi hj hnone
    have hg : get2d (nu.linSearchData t0s Ds b).vz i j
        = ((nu.eval_transit (t0s.getD i 0) (Ds.getD j 0)).2.1).getD (10 ^ 25) :=
      get2d_grid t0s Ds (fun a b => nu.eval_transit a b)
        (fun c => (c.2.1).getD (10 ^ 25)) hi hj
    rw [hg, hnone]
    rfl

/-- Witness for claim C2 at the session nuA on the grid t0s = [0],
Ds = [1], whose single variance entry is 1. -/
theorem claim2_witness :
    [1] ∈ (nuA.linSearchData [0] [1] true).vz
    ∧ (1 : ℚ) ∈ ([1] : List ℚ)
    ∧ (0 < (1 : ℚ)
      ∧ ∀ i j, i < ([0] : List ℚ).length → j < ([1] : List ℚ).length →
          (nuA.eval_transit (([0] : List ℚ).getD i 0) (([1] : List ℚ).getD j 0)).2.1 = none →
          get2d (nuA.linSearchData [0] [1] true).vz i j = 10 ^ 25) :=
  ⟨by rw [nuA_lin]; exact List.mem_singleton.mpr rfl,
   List.mem_singleton.mpr rfl,
   claim2_vz_finite_positive nuA [0] [1] true [1] 1
     (by rw [nuA_lin]; exact List.mem_singleton.mpr rfl)
     (List.mem_singleton.mpr rfl)⟩

/-! ### Claim C5 -/

/-- A session whose template is identically zero: the Gram matrix of the
candidate fit is singular, so the raw covariance is non-finite (none). -/
def nuC5 : Nuance 0 :=
  { time := [0], flux := [1], error := some (ErrVal.arr [1]), X := Fin.elim0,
    Lsolve := fun m => m, logProb := fun r => r.sum,
    template := fun _ _ _ _ => 0, search_data := none }

lemma nuC5_eval : nuC5.eval_transit 0 1 = (0, none, 1) := by
  simp only [Nuance.eval_transit, Nuance.eval_m, nuC5]
  norm_num [dot, det01, adj01, sum01, Matrix.of_apply, Matrix.mulVec,
    Matrix.dotProduct, Matrix.smul_apply, List.ofFn_succ, Matrix.one_apply,
    List.getD, Fin.snoc, List.range_succ]

lemma nuC5_depth : (nuC5.depth (fun x => x) 0 1 none).2 = none := by
  simp only [Nuance.depth, Nuance.solve, Nuance.eval_m, nuC5]
  norm_num [dot, det01, adj01, sum01, Matrix.of_apply, Matrix.mulVec,
    Matrix.dotProduct, Matrix.smul_apply, List.ofFn_succ, Matrix.one_apply,
    List.getD, Fin.snoc, List.range_succ]

lemma nuC5_lin : nuC5.linSearchData [0] [1] true =
    ⟨[0], [1], [[1]], [[0]], [[10 ^ 25]], 1, none, none, none, none, none, none⟩ := by
  rw [Nuance.linSearchData]
  simp only [eval_m_zeros_eq_ll0]
  have hll0 : nuC5.ll0 = 1 := by
    simp only [Nuance.ll0, Nuance.eval_m, nuC5]
    norm_num [dot, det01, adj01, sum01, Matrix.of_apply, Matrix.mulVec,
      Matrix.dotProduct, Matrix.smul_apply, List.ofFn_succ, Matrix.one_apply,
      List.getD, Fin.snoc, List.range_succ]
  norm_num [nuC5_eval, hll0]

/-- Counterexample to claim C5 as stated: the depth/(z, sqrt vz) round
trip fails at a grid cell whose Gram matrix is degenerate. At the session
nuC5 and cell (t0, D) = (0, 1) the stored variance is the sanitized
sentinel 1e25, but the directly computed depth error is NaN (sqrt of the
non-finite inverse), so the pair returned by depth is not the stored pair.
(np.sqrt is instantiated with the identity function; the disagreement is
none versus some, independent of the sqrt model.) -/
theorem claim5_counterexample :
    (nuC5.depth (fun x => x) 0 1 none).2
      ≠ some (get2d (nuC5.linSearchData [0] [1] true).vz 0 0) := by
  rw [nuC5_depth]
  simp

/-- Claim C5 as amended: at every grid cell of a completed linear search
whose raw fitted covariance is finite (invertible Gram matrix), depth with
P omitted returns exactly the stored pair (z, sqrt vz) of the surface at
that cell, and snr returns exactly their quotient z / sqrt(vz). -/
theorem claim5_depth_snr_roundtrip {k : ℕ} (nu : Nuance k) (sq : ℚ → ℚ)
    (t0s Ds : List ℚ) (i j : ℕ) (r : ℚ)
    (hi : i < t0s.length) (hj : j < Ds.length)
    (hr : (nu.eval_transit (t0s.getD i 0) (Ds.getD j 0)).2.1 = some r) :
    nu.depth sq (t0s.getD i 0) (Ds.getD j 0) none
      = (get2d (nu.linSearchData t0s Ds true).z i j,
         some (sq (get2d (nu.linSearchData t0s Ds true).vz i j)))
    ∧ nu.snr sq (t0s.getD i 0) (Ds.getD j 0) none
      = some (get2d (nu.linSearchData t0s Ds true).z i j
          / sq (get2d (nu.linSearchData t0s Ds true).vz i j)) := by
  have hz : get2d (nu.linSearchData t0s Ds true).z i j
      = (nu.eval_transit (t0s.getD i 0) (Ds.getD j 0)).1 :=
    get2d_grid t0s Ds (fun a b => nu.eval_transit a b) (fun c => c.1) hi hj
  have hv : get2d (nu.linSearchData t0s Ds true).vz i j = r := by
    have hg : get2d (nu.linSearchData t0s Ds true).vz i j
        = ((nu.eval_transit (t0s.getD i 0) (Ds.getD j 0)).2.1).getD (10 ^ 25) :=
      get2d_grid t0s Ds (fun a b => nu.eval_transit a b)
        (fun c => (c.2.1).getD (10 ^ 25)) hi hj
    rw [hg, hr, Option.getD_some]
  have hr' : ((nu.eval_m (nu.time.map fun t =>
      nu.template t (t0s.getD i 0) (Ds.getD j 0) none)).2.2).map
      (fun v => (v.getD k []).getD k 0) = some r := hr
  rcases Option.map_eq_some'.mp hr' with ⟨Mv, hMv, hMr⟩
  have hMr' : (Mv.getD k []).getD k 0 = r := hMr
  have hdep : nu.depth sq (t0s.getD i 0) (Ds.getD j 0) none
      = (get2d (nu.linSearchData t0s Ds true).z i j,
         some (sq (get2d (nu.linSearchData t0s Ds true).vz i j))) := by
    show ((nu.eval_m (nu.time.map fun t =>
        nu.template t (t0s.getD i 0) (Ds.getD j 0) none)).2.1.getD k 0,
      ((nu.eval_m (nu.time.map fun t =>
        nu.template t (t0s.getD i 0) (Ds.getD j 0) none)).2.2).map
        fun v => sq ((v.getD k []).getD k 0)) = _
    rw [hMv, Option.map_some', hz, hv, hMr']
    rfl
  refine ⟨hdep, ?_⟩
  show ((nu.depth sq (t0s.getD i 0) (Ds.getD j 0) none).2).map
      (fun dw => (nu.depth sq (t0s.getD i 0) (Ds.getD j 0) none).1 / dw) = _
  rw [hdep]
  rfl

/-- Witness for (amended) claim C5 at the session nuA, grid t0s = [0],
Ds = [1], cell (0, 0), raw variance 1. -/
theorem claim5_witness :
    (0 : ℕ) < ([0] : List ℚ).length ∧ (0 : ℕ) < ([1] : List ℚ).length
    ∧ (nuA.eval_transit (([0] : List ℚ).getD 0 0) (([1] : List ℚ).getD 0 0)).2.1 = some 1
    ∧ (nuA.depth (fun x => x) (([0] : List ℚ).getD 0 0) (([1] : List ℚ).getD 0 0) none
        = (get2d (nuA.linSearchData [0] [1] true).z 0 0,
           some ((fun x => x) (get2d (nuA.linSearchData [0] [1] true).vz 0 0)))
      ∧ nuA.snr (fun x => x) (([0] : List ℚ).getD 0 0) (([1] : List ℚ).getD 0 0) none
        = some (get2d (nuA.linSearchData [0] [1] true).z 0 0
            / (fun x => x) (get2d (nuA.linSearchData [0] [1] true).vz 0 0))) :=
  ⟨by norm_num, by norm_num, by simp [nuA_eval],
    claim5_depth_snr_roundtrip nuA (fun x => x) [0] [1] 0 0 1
      (by norm_num) (by norm_num) (by simp [nuA_eval])⟩

/-! ### Claims C3 and C4: argmax machinery -/

lemma argmaxIdx_lt (l : List ℚ) (h : l ≠ []) : argmaxIdx l < l.length := by
  induction l with
  | nil => exact absurd rfl h
  | cons x xs ih =>
      cases xs with
      | nil => simp [argmaxIdx]
      | cons y rest =>
          have ht : argmaxIdx (y :: rest) < (y :: rest).length := ih (by simp)
          simp only [argmaxIdx]
          split
          · simpa using Nat.succ_lt_succ ht
          · simp

lemma getD_le_argmaxIdx (l : List ℚ) (i : ℕ) (hi : i < l.length) :
    l.getD i 0 ≤ l.getD (argmaxIdx l) 0 := by
  induction l generalizing i with
  | nil => simp at hi
  | cons x xs ih =>
      cases xs with
      | nil =>
          have hi0 : i = 0 := by simpa using Nat.lt_one_iff.mp (by simpa using hi)
          subst hi0
          simp [argmaxIdx]
      | cons y rest =>
          simp only [argmaxIdx]
          split
          · rename_i hlt
            rw [List.getD_cons_succ]
            cases i with
            | zero =>
                rw [List.getD_cons_zero]
                exact le_of_lt hlt
            | succ i' =>
                rw [List.getD_cons_succ]
                exact ih i' (by simpa using hi)
          · rename_i hge
            rw [List.getD_cons_zero]
            cases i with
            | zero => rw [List.getD_cons_zero]
            | succ i' =>
                rw [List.getD_cons_succ]
                exact le_trans (ih i' (by simpa using hi)) (not_lt.mp hge)

lemma flatten_length_rect (g : List (List ℚ)) (nc : ℕ)
    (h : ∀ r ∈ g, r.length = nc) : g.flatten.length = g.length * nc := by
  induction g with
  | nil => simp
  | cons r g' ih =>
      simp only [List.flatten_cons, List.length_append, List.length_cons]
      rw [h r (by simp), ih (fun r hr => h r (by simp [hr]))]
      ring

lemma flatten_getD_rect (nc j : ℕ) (hj : j < nc) :
    ∀ (g : List (List ℚ)) (i : ℕ), (∀ r ∈ g, r.length = nc) → i < g.length →
      g.flatten.getD (i * nc + j) 0 = get2d g i j := by
  intro g
  induction g with
  | nil => intro i _ hi; simp at hi
  | cons r g' ih =>
      intro i h hi
      have hlen : r.length = nc := h r (by simp)
      cases i with
      | zero =>
          simp only [List.flatten_cons, zero_mul, zero_add]
          rw [List.getD_eq_getElem?_getD, List.getElem?_append]
          rw [if_pos (by rw [hlen]; exact hj)]
          rw [← List.getD_eq_getElem?_getD]
          rfl
      | succ i' =>
          have hidx : (i' + 1) * nc + j = r.length + (i' * nc + j) := by
            rw [hlen]; ring
          simp only [List.flatten_cons]
          rw [List.getD_eq_getElem?_getD, hidx,
            List.getElem?_append_right (by omega)]
          have hsub : r.length + (i' * nc + j) - r.length = i' * nc + j := by omega
          rw [hsub, ← List.getD_eq_getElem?_getD,
            ih i' (fun r hr => h r (List.mem_cons_of_mem _ hr)) (by simpa using hi)]
          rfl

/-- Correctness of the row-major argmax-and-unravel of the source: on a
nonempty rectangular grid it lands inside the grid and dominates every
entry. -/
lemma argmax2d_spec (g : List (List ℚ)) (nc : ℕ) (hg : g ≠ [])
    (hnc : 0 < nc) (h : ∀ r ∈ g, r.length = nc) :
    (argmax2d g).1 < g.length ∧ (argmax2d g).2 < nc
    ∧ ∀ a b, a < g.length → b < nc →
        get2d g a b ≤ get2d g (argmax2d g).1 (argmax2d g).2 := by
  have hheadlen : (g.headD []).length = nc := by
    cases g with
    | nil => exact absurd rfl hg
    | cons r g' => exact h r (by simp)
  have hflatlen : g.flatten.length = g.length * nc := flatten_length_rect g nc h
  have hgpos : 0 < g.length := by
    cases g with
    | nil => exact absurd rfl hg
    | cons r g' => simp
  have hpos : 0 < g.flatten.length := by
    rw [hflatlen]; exact Nat.mul_pos hgpos hnc
  have hK : argmaxIdx g.flatten < g.flatten.length :=
    argmaxIdx_lt _ (by intro he; rw [he] at hpos; simp at hpos)
  have hKlen : argmaxIdx g.flatten < g.length * nc := by rw [← hflatlen]; exact hK
  have hidx : argmax2d g = (argmaxIdx g.flatten / nc, argmaxIdx g.flatten % nc) := by
    rw [argmax2d, hheadlen]
  have hi : argmaxIdx g.flatten / nc < g.length := (Nat.div_lt_iff_lt_mul hnc).mpr hKlen
  have hjlt : argmaxIdx g.flatten % nc < nc := Nat.mod_lt _ hnc
  have hdecomp : (argmaxIdx g.flatten / nc) * nc + argmaxIdx g.flatten % nc
      = argmaxIdx g.flatten := by
    rw [mul_comm]; exact Nat.div_add_mod _ nc
  refine ⟨by rw [hidx]; exact hi, by rw [hidx]; exact hjlt, ?_⟩
  intro a b ha hb
  rw [hidx]
  have h1 := flatten_getD_rect nc b hb g a h ha
  have h2 := flatten_getD_rect nc (argmaxIdx g.flatten % nc) hjlt g
    (argmaxIdx g.flatten / nc) h hi
  rw [hdecomp] at h2
  rw [← h1, ← h2]
  have hab : a * nc + b < g.flatten.length := by
    rw [hflatlen]
    calc a * nc + b < a * nc + nc := by omega
      _ = (a + 1) * nc := by ring
      _ ≤ g.length * nc := Nat.mul_le_mul_right nc ha
  exact getD_le_argmaxIdx g.flatten (a * nc + b) hab

/-- Claim C3: for every period P in the input, periodic_search picks the
grid cell (i, j) = argmax of the maximized aggregate P2 = fold_ll(P).2
(the chosen cell dominates every entry of the rectangular P2), records
best epoch Ti = phase[i] * P and best duration Dj = Ds[j] in the params
slot of that period, and records max_ll as P2[i,j] minus the mean of
P2. -/
theorem claim3_periodic_selects_argmax {k : ℕ} (nu : Nuance k) (sq : ℚ → ℚ)
    (fold_ll : SearchData → ℚ → List ℚ × List (List ℚ) × List (List ℚ))
    (periods : List ℚ) (sd0 : SearchData) (p : ℕ) (P : ℚ)
    (phase_g : List ℚ) (P1 P2 : List (List ℚ)) (nc : ℕ)
    (hsd : nu.search_data = some sd0)
    (hfold : fold_ll sd0 P = (phase_g, P1, P2))
    (hp : p < periods.length) (hP : periods.getD p 0 = P)
    (hrect : ∀ r ∈ P2, r.length = nc) (hnc : 0 < nc) (hne : P2 ≠ [])
    (hph : phase_g.length = P2.length) :
    ∃ sd' qp qll,
      nu.periodic_search sq fold_ll periods = some (nu, sd')
      ∧ sd'.Q_params = some qp ∧ sd'.Q_ll = some qll
      ∧ (∀ a b, a < P2.length → b < nc →
          get2d P2 a b ≤ get2d P2 (argmax2d P2).1 (argmax2d P2).2)
      ∧ (argmax2d P2).1 < phase_g.length
      ∧ qp.getD p (0, 0, 0)
          = (phase_g.getD (argmax2d P2).1 0 * P, sd0.Ds.getD (argmax2d P2).2 0, P)
      ∧ qll.getD p 0 = get2d P2 (argmax2d P2).1 (argmax2d P2).2 - mean2d P2 := by
  obtain ⟨h1, _h2, h3⟩ := argmax2d_spec P2 nc hne hnc hrect
  simp only [Nuance.periodic_search, hsd, Option.map_some', SearchData.copy]
  refine ⟨_, _, _, rfl, rfl, rfl, h3, by rw [hph]; exact h1, ?_, ?_⟩
  · rw [List.map_map, getD_map_of_lt _ _ hp _ 0, hP]
    simp only [Function.comp_apply, hfold]
  · rw [List.map_map, getD_map_of_lt _ _ hp _ 0, hP]
    simp only [Function.comp_apply, hfold]

/-- A concrete fold-aggregation primitive for the witnesses below. -/
def fold_llW : SearchData → ℚ → List ℚ × List (List ℚ) × List (List ℚ) :=
  fun _ _ => ([0, 7], [[0]], [[1, 2], [5, 3]])

/-- Witness for claim C3 at the session nuB with a concrete fold
primitive: one period P = 2, maximized aggregate [[1, 2], [5, 3]]. -/
theorem claim3_witness :
    nuB.search_data = some sdB
    ∧ fold_llW sdB 2 = ([0, 7], [[0]], [[1, 2], [5, 3]])
    ∧ (0 : ℕ) < ([2] : List ℚ).length
    ∧ ([2] : List ℚ).getD 0 0 = 2
    ∧ (∀ r ∈ ([[1, 2], [5, 3]] : List (List ℚ)), r.length = 2)
    ∧ (0 : ℕ) < 2
    ∧ ([[1, 2], [5, 3]] : List (List ℚ)) ≠ []
    ∧ ([0, 7] : List ℚ).length = ([[1, 2], [5, 3]] : List (List ℚ)).length
    ∧ ∃ sd' qp qll,
        nuB.periodic_search (fun x => x) fold_llW [2] = some (nuB, sd')
        ∧ sd'.Q_params = some qp ∧ sd'.Q_ll = some qll
        ∧ (∀ a b, a < ([[1, 2], [5, 3]] : List (List ℚ)).length → b < 2 →
            get2d [[1, 2], [5, 3]] a b
              ≤ get2d [[1, 2], [5, 3]] (argmax2d [[1, 2], [5, 3]]).1
                  (argmax2d [[1, 2], [5, 3]]).2)
        ∧ (argmax2d [[1, 2], [5, 3]]).1 < ([0, 7] : List ℚ).length
        ∧ qp.getD 0 (0, 0, 0)
            = (([0, 7] : List ℚ).getD (argmax2d [[1, 2], [5, 3]]).1 0 * 2,
               sdB.Ds.getD (argmax2d [[1, 2], [5, 3]]).2 0, 2)
        ∧ qll.getD 0 0 = get2d [[1, 2], [5, 3]] (argmax2d [[1, 2], [5, 3]]).1
              (argmax2d [[1, 2], [5, 3]]).2 - mean2d [[1, 2], [5, 3]] :=
  ⟨rfl, rfl, by norm_num, by norm_num,
    by intro r hr; fin_cases hr <;> rfl,
    by norm_num, by simp, rfl,
    claim3_periodic_selects_argmax nuB (fun x => x) fold_llW [2] sdB 0 2
      [0, 7] [[0]] [[1, 2], [5, 3]] 2 rfl rfl (by norm_num) (by norm_num)
      (by intro r hr; fin_cases hr <;> rfl)
      (by norm_num) (by simp) rfl⟩

/-- Claim C4: periodic_search emits exactly one record per input period,
stored at that period's position (record p carries period periods[p], and
the Q sequences have the length of the input, unsorted), and the SNR of
record p is recomputed by the model evaluator at (Ti, Dj, P) with the
period set (a genuinely periodic template), not read off the linear-search
grid. -/
theorem claim4_records_aligned {k : ℕ} (nu : Nuance k) (sq : ℚ → ℚ)
    (fold_ll : SearchData → ℚ → List ℚ × List (List ℚ) × List (List ℚ))
    (periods : List ℚ) (sd0 : SearchData)
    (hsd : nu.search_data = some sd0) :
    ∃ sd' qs qp,
      nu.periodic_search sq fold_ll periods = some (nu, sd')
      ∧ sd'.Q_snr = some qs ∧ sd'.Q_params = some qp
      ∧ qs.length = periods.length ∧ qp.length = periods.length
      ∧ ∀ p, p < periods.length →
          (qp.getD p (0, 0, 0)).2.2 = periods.getD p 0
          ∧ qs.getD p none = nu.snr sq
              ((fold_ll sd0 (periods.getD p 0)).1.getD
                (argmax2d (fold_ll sd0 (periods.getD p 0)).2.2).1 0
                * periods.getD p 0)
              (sd0.Ds.getD (argmax2d (fold_ll sd0 (periods.getD p 0)).2.2).2 0)
              (some (periods.getD p 0)) := by
  simp only [Nuance.periodic_search, hsd, Option.map_some', SearchData.copy]
  refine ⟨_, _, _, rfl, rfl, rfl, by simp, by simp, ?_⟩
  intro p hp
  constructor
  · rw [List.map_map, getD_map_of_lt _ _ hp _ 0]
    simp only [Function.comp_apply]
  · rw [List.map_map, getD_map_of_lt _ _ hp _ 0]
    simp only [Function.comp_apply]

/-- Witness for claim C4 at the session nuB, fold primitive fold_llW and
period list [2]. -/
theorem claim4_witness :
    nuB.search_data = some sdB
    ∧ ∃ sd' qs qp,
        nuB.periodic_search (fun x => x) fold_llW [2] = some (nuB, sd')
        ∧ sd'.Q_snr = some qs ∧ sd'.Q_params = some qp
        ∧ qs.length = ([2] : List ℚ).length ∧ qp.length = ([2] : List ℚ).length
        ∧ ∀ p, p < ([2] : List ℚ).length →
            (qp.getD p (0, 0, 0)).2.2 = ([2] : List ℚ).getD p 0
            ∧ qs.getD p none = nuB.snr (fun x => x)
                ((fold_llW sdB (([2] : List ℚ).getD p 0)).1.getD
                  (argmax2d (fold_llW sdB (([2] : List ℚ).getD p 0)).2.2).1 0
                  * ([2] : List ℚ).getD p 0)
                (sdB.Ds.getD
                  (argmax2d (fold_llW sdB (([2] : List ℚ).getD p 0)).2.2).2 0)
                (some (([2] : List ℚ).getD p 0)) :=
  ⟨rfl, claim4_records_aligned nuB (fun x => x) fold_llW [2] sdB rfl⟩

/-! ### Claim C9 -/

lemma select_cons {β : Type} (b : Bool) (bs : List Bool) (y : β) (ys : List β) :
    select (b :: bs) (y :: ys) = if b then y :: select bs ys else select bs ys := by
  cases b <;> simp [select, List.zip_cons_cons, List.filter_cons]

lemma select_map_self {α : Type} (p : α → Bool) (l : List α) :
    select (l.map p) l = l.filter p := by
  induction l with
  | nil => rfl
  | cons x xs ih =>
      simp only [List.map_cons, select_cons, List.filter_cons]
      cases hpx : p x <;> simp [hpx, ih]

lemma select_map_zip {α β : Type} (p : α → Bool) :
    ∀ (l : List α) (l2 : List β), l2.length = l.length →
      select (l.map p) l2
        = ((l.zip l2).filter fun q => p q.1).map fun q => q.2 := by
  intro l
  induction l with
  | nil =>
      intro l2 h
      have h0 : l2 = [] := List.length_eq_zero.mp (by simpa using h)
      subst h0
      rfl
  | cons x xs ih =>
      intro l2 h
      cases l2 with
      | nil => simp at h
      | cons y ys =>
          have h' : ys.length = xs.length := by simpa using h
          simp only [List.map_cons, select_cons, List.zip_cons_cons, List.filter_cons]
          cases hpx : p x <;> simp [hpx, ih ys h']

/-- Claim C9: for a detection (t0, D, P), mask produces a new session whose
time series, design-matrix columns and search-surface rows are exactly the
original entries whose folded phase distance to the transit exceeds 2D
(everything within 2D removed, durations and ll0 untouched). In this pure
embedding the input session is an immutable value, so non-mutation of the
original time, flux, design matrix and search_data holds by construction;
the content is the exact filtering of the returned instances. -/
theorem claim9_mask_filters {k : ℕ} (nu : Nuance k) (Ls2 : List ℚ → List ℚ)
    (lp2 : List ℚ → ℚ) (t0 D P : ℚ) (sd0 : SearchData) (e : List ℚ)
    (hsd : nu.search_data = some sd0) (herr : nu.error = some (ErrVal.arr e))
    (hfl : nu.flux.length = nu.time.length)
    (hX : ∀ i, (nu.X i).length = nu.time.length)
    (hll : sd0.ll.length = sd0.t0s.length)
    (hz : sd0.z.length = sd0.t0s.length)
    (hvz : sd0.vz.length = sd0.t0s.length) :
    ∃ nu2, nu.mask Ls2 lp2 t0 D P = some nu2
      ∧ nu2.time = nu.time.filter (fun t => decide (2 * D < |phase t t0 P|))
      ∧ nu2.flux = ((nu.time.zip nu.flux).filter fun q =>
          decide (2 * D < |phase q.1 t0 P|)).map (fun q => q.2)
      ∧ (∀ i, nu2.X i = ((nu.time.zip (nu.X i)).filter fun q =>
          decide (2 * D < |phase q.1 t0 P|)).map (fun q => q.2))
      ∧ ∃ sd2, nu2.search_data = some sd2
        ∧ sd2.t0s = sd0.t0s.filter (fun t => decide (2 * D < |phase t t0 P|))
        ∧ sd2.ll = ((sd0.t0s.zip sd0.ll).filter fun q =>
            decide (2 * D < |phase q.1 t0 P|)).map (fun q => q.2)
        ∧ sd2.z = ((sd0.t0s.zip sd0.z).filter fun q =>
            decide (2 * D < |phase q.1 t0 P|)).map (fun q => q.2)
        ∧ sd2.vz = ((sd0.t0s.zip sd0.vz).filter fun q =>
            decide (2 * D < |phase q.1 t0 P|)).map (fun q => q.2)
        ∧ sd2.Ds = sd0.Ds ∧ sd2.ll0 = sd0.ll0 := by
  simp only [Nuance.mask, hsd, Option.some_bind, SearchData.copy, herr, mkNuance,
    Option.map_some', Option.getD_some]
  refine ⟨_, rfl, ?_, ?_, ?_, _, rfl, ?_, ?_, ?_, ?_, rfl, rfl⟩
  · exact select_map_self _ _
  · exact select_map_zip _ _ _ hfl
  · intro i; exact select_map_zip _ _ _ (hX i)
  · exact select_map_self _ _
  · exact select_map_zip _ _ _ hll
  · exact select_map_zip _ _ _ hz
  · exact select_map_zip _ _ _ hvz

/-- A search surface with two grid epochs, to exercise the mask. -/
def sdC9 : SearchData :=
  ⟨[0, 1/2], [1], [[1], [2]], [[3], [4]], [[5], [6]], 0,
    none, none, none, none, none, none⟩

/-- A two-point session carrying sdC9. -/
def nuC9 : Nuance 0 :=
  { time := [0, 1/2], flux := [1, 2], error := some (ErrVal.arr [1, 1]),
    X := Fin.elim0, Lsolve := fun m => m, logProb := fun r => r.sum,
    template := fun _ _ _ _ => 1, search_data := some sdC9 }

/-- Witness for claim C9 at the session nuC9 and detection
(t0, D, P) = (0, 1/8, 1). -/
theorem claim9_witness :
    nuC9.search_data = some sdC9
    ∧ nuC9.error = some (ErrVal.arr [1, 1])
    ∧ nuC9.flux.length = nuC9.time.length
    ∧ (∀ i, (nuC9.X i).length = nuC9.time.length)
    ∧ sdC9.ll.length = sdC9.t0s.length
    ∧ sdC9.z.length = sdC9.t0s.length
    ∧ sdC9.vz.length = sdC9.t0s.length
    ∧ ∃ nu2, nuC9.mask (fun m => m) (fun r => r.sum) 0 (1/8) 1 = some nu2
      ∧ nu2.time = nuC9.time.filter (fun t => decide (2 * (1/8) < |phase t 0 1|))
      ∧ nu2.flux = ((nuC9.time.zip nuC9.flux).filter fun q =>
          decide (2 * (1/8) < |phase q.1 0 1|)).map (fun q => q.2)
      ∧ (∀ i, nu2.X i = ((nuC9.time.zip (nuC9.X i)).filter fun q =>
          decide (2 * (1/8) < |phase q.1 0 1|)).map (fun q => q.2))
      ∧ ∃ sd2, nu2.search_data = some sd2
        ∧ sd2.t0s = sdC9.t0s.filter (fun t => decide (2 * (1/8) < |phase t 0 1|))
        ∧ sd2.ll = ((sdC9.t0s.zip sdC9.ll).filter fun q =>
            decide (2 * (1/8) < |phase q.1 0 1|)).map (fun q => q.2)
        ∧ sd2.z = ((sdC9.t0s.zip sdC9.z).filter fun q =>
            decide (2 * (1/8) < |phase q.1 0 1|)).map (fun q => q.2)
        ∧ sd2.vz = ((sdC9.t0s.zip sdC9.vz).filter fun q =>
            decide (2 * (1/8) < |phase q.1 0 1|)).map (fun q => q.2)
        ∧ sd2.Ds = sdC9.Ds ∧ sd2.ll0 = sdC9.ll0 :=
  ⟨rfl, rfl, rfl, fun i => i.elim0, rfl, rfl, rfl,
    claim9_mask_filters nuC9 (fun m => m) (fun r => r.sum) 0 (1/8) 1 sdC9 [1, 1]
      rfl rfl rfl (fun i => i.elim0) rfl rfl rfl⟩

end NuanceModel
